import Mathlib

/-!
Shallow embedding of the ESL video player segment-synchronization engine
(frontend/src/components/ESLVideoPlayer.jsx). Times are modelled as
rationals; the component state and its side effects on the external player
are modelled as an explicit state record plus an effect list.
-/

/-- A word of a segment; start and end timing are optional (a word lacking
either is untimed, mirroring undefined/null/non-number fields). -/
structure Word where
  text : String
  start : Option ℚ
  «end» : Option ℚ
deriving DecidableEq

/-- A parsed transcript segment as built by the transcription parsing
effect of ESLVideoPlayer. -/
structure Segment where
  id : Nat
  start : ℚ
  «end» : ℚ
  text : String
  duration : ℚ
  words : List Word
deriving DecidableEq

instance : Inhabited Segment :=
  ⟨{ id := 0, start := 0, «end» := 0, text := "", duration := 0, words := [] }⟩

/-- The effective playback window returned by calculatePreciseTiming. -/
structure Timing where
  startTime : ℚ
  endTime : ℚ
  duration : ℚ
deriving DecidableEq

def START_BUFFER : ℚ := 15/100

def END_BUFFER : ℚ := 3/10

def MIN_END_BUFFER : ℚ := 15/100

/-- Math.max on two rationals, written so that it reduces in the kernel. -/
def mathMax (a b : ℚ) : ℚ :=
  if a ≤ b then b else a

theorem le_mathMax_left (a b : ℚ) : a ≤ mathMax a b := by
  unfold mathMax; split <;> simp_all

theorem le_mathMax_right (a b : ℚ) : b ≤ mathMax a b := by
  unfold mathMax; split <;> [simp; linarith]

theorem mathMax_le (a b c : ℚ) (ha : a ≤ c) (hb : b ≤ c) : mathMax a b ≤ c := by
  unfold mathMax; split <;> assumption

/-- The filter predicate of calculatePreciseTiming: a word participates in
timing computations only when both start and end are present numbers. -/
def hasTiming (w : Word) : Bool :=
  w.start.isSome && w.«end».isSome

/-- The fallback window used when a segment has no usable word timing
(duplicated verbatim at two places in the source). -/
def segmentFallbackTiming (segment : Segment) : Timing :=
  { startTime := mathMax 0 (segment.start - START_BUFFER)
    endTime := segment.«end» + END_BUFFER
    duration := (segment.«end» + END_BUFFER) - mathMax 0 (segment.start - START_BUFFER) }

/-- calculatePreciseTiming of ESLVideoPlayer.jsx: the effective playback
window of a segment, derived from word-level timing when present. -/
def calculatePreciseTiming (segment : Segment) : Timing :=
  if segment.words.isEmpty then
    segmentFallbackTiming segment
  else
    let wordsWithTiming := segment.words.filter hasTiming
    match wordsWithTiming.head?, wordsWithTiming.getLast? with
    | some firstW, some lastW =>
      let firstWordStart := firstW.start.getD 0
      let lastWordEnd := lastW.«end».getD 0
      let preciseStartTime := mathMax 0 (firstWordStart - START_BUFFER)
      let wordToSegmentGap := segment.«end» - lastWordEnd
      let preciseEndTime0 :=
        if wordToSegmentGap > 1/2 then
          segment.«end» + MIN_END_BUFFER
        else if wordToSegmentGap > 1/10 then
          mathMax (lastWordEnd + END_BUFFER) (segment.«end» + MIN_END_BUFFER)
        else
          lastWordEnd + END_BUFFER
      let preciseEndTime := mathMax preciseEndTime0 (segment.«end» + MIN_END_BUFFER)
      { startTime := preciseStartTime
        endTime := preciseEndTime
        duration := preciseEndTime - preciseStartTime }
    | _, _ => segmentFallbackTiming segment

example :
    calculatePreciseTiming
      { id := 0, start := 0, «end» := 2, text := "", duration := 2, words := [] } =
      { startTime := 0, endTime := 23/10, duration := 23/10 } := by
  with_unfolding_all decide

/-- findIndex of JavaScript, returning none instead of -1 when no element
satisfies the predicate. -/
def findIndexP {α : Type} (p : α → Bool) : List α → Option Nat
  | [] => none
  | a :: rest => if p a then some 0 else (findIndexP p rest).map (· + 1)

theorem findIndexP_lt {α : Type} (p : α → Bool) (l : List α) (i : Nat)
    (h : findIndexP p l = some i) : i < l.length := by
  induction l generalizing i with
  | nil => simp [findIndexP] at h
  | cons a rest ih =>
    by_cases hp : p a
    · simp [findIndexP, hp] at h
      simp [List.length_cons]
      omega
    · simp [findIndexP, hp] at h
      obtain ⟨j, hj, rfl⟩ := h
      have := ih j hj
      simp [List.length_cons]
      omega

/-- The containment test of the first resolution pass of handleTimeUpdate:
the effective window of the segment contains the current time, inclusive at
both ends. -/
def containsTime (currentTime : ℚ) (segment : Segment) : Bool :=
  let timing := calculatePreciseTiming segment
  decide (timing.startTime ≤ currentTime) && decide (currentTime ≤ timing.endTime)

/-- The second resolution pass of handleTimeUpdate: currentTime lies in
[window start of segment i, window start of segment i+1), and for the last
segment any currentTime at or past its window start matches. -/
def fallbackScan (currentTime : ℚ) : List Segment → Option Nat
  | [] => none
  | [segment] =>
    if decide ((calculatePreciseTiming segment).startTime ≤ currentTime) then
      some 0
    else
      none
  | segment :: nextSegment :: rest =>
    if decide ((calculatePreciseTiming segment).startTime ≤ currentTime) &&
        decide (currentTime < (calculatePreciseTiming nextSegment).startTime) then
      some 0
    else
      (fallbackScan currentTime (nextSegment :: rest)).map (· + 1)

theorem fallbackScan_lt (currentTime : ℚ) (l : List Segment) (i : Nat)
    (h : fallbackScan currentTime l = some i) : i < l.length := by
  induction l generalizing i with
  | nil => simp [fallbackScan] at h
  | cons a rest ih =>
    cases rest with
    | nil =>
      rw [fallbackScan] at h
      split at h
      · simp at h
        simp [List.length_cons]
        omega
      · simp at h
    | cons b rest2 =>
      rw [fallbackScan] at h
      split at h
      · simp at h
        simp [List.length_cons]
        omega
      · simp at h
        obtain ⟨j, hj, rfl⟩ := h
        have := ih j hj
        simp [List.length_cons] at this ⊢
        omega

/-- The full clock-to-segment resolution of handleTimeUpdate: the
containment pass, then the window-start interval pass, then the
past-the-end / default-0 final fallback. Returns -1 exactly as the
JavaScript findIndex chain would. -/
def segmentToShow (segments : List Segment) (currentTime : ℚ) : Int :=
  match findIndexP (containsTime currentTime) segments with
  | some i => (i : Int)
  | none =>
    match fallbackScan currentTime segments with
    | some i => (i : Int)
    | none =>
      match segments.getLast? with
      | none => -1
      | some lastSegment =>
        if currentTime > (calculatePreciseTiming lastSegment).endTime then
          (segments.length : Int) - 1
        else
          0

/-- The bound behind claim C1, shared so that the claim theorem itself is
not reused by other proofs. -/
theorem segmentToShow_bounds (segments : List Segment) (currentTime : ℚ)
    (hne : segments ≠ []) :
    0 ≤ segmentToShow segments currentTime ∧
      segmentToShow segments currentTime < (segments.length : Int) := by
  have hlen : 1 ≤ segments.length := List.length_pos.mpr hne
  unfold segmentToShow
  split
  next i h1 =>
    have := findIndexP_lt _ _ _ h1
    constructor
    · exact Int.ofNat_nonneg i
    · exact_mod_cast this
  next h1 =>
    split
    next i h2 =>
      have := fallbackScan_lt _ _ _ h2
      constructor
      · exact Int.ofNat_nonneg i
      · exact_mod_cast this
    next h2 =>
      split
      next h3 =>
        exact absurd (List.getLast?_eq_none_iff.mp h3) hne
      next lastSegment h3 =>
        split
        · constructor <;> omega
        · constructor <;> omega


/-- The playback mode of ESLVideoPlayer (useState playbackMode). -/
inductive Mode
  | normal
  | listen
  | «repeat»
deriving DecidableEq

/-- Side effects the component issues on the external player or on the
host callbacks. -/
inductive Effect
  | seek (t : ℚ)
  | play
  | pause
  | onProgress (i : Nat) (s : Segment)
  | onSegmentChange (i : Nat) (s : Segment)
  | onSegmentComplete (i : Nat) (s : Segment)
deriving DecidableEq

/-- The component state owned by ESLVideoPlayer that the claims are about.
playerAttached models whether playerRef.current is non-null. -/
structure EngineState where
  currentSegment : Nat
  playbackMode : Mode
  repeatCount : Nat
  maxRepeats : Nat
  isPlaying : Bool
  segments : List Segment
  playerAttached : Bool
deriving DecidableEq

/-- The timing playSegment selects: calculatePreciseTiming in repeat mode,
the raw segment boundaries otherwise. -/
def segmentTimingFor (st : EngineState) (segment : Segment) : Timing :=
  if st.playbackMode = Mode.«repeat» then
    calculatePreciseTiming segment
  else
    { startTime := segment.start, endTime := segment.«end», duration := segment.duration }

/-- playSegment of ESLVideoPlayer: guards on an attached player and a
non-empty, in-range segment list, seeks the chosen start, starts playback,
and arms the periodic end-boundary check at the chosen end (returned as
the second component). -/
def playSegment (st : EngineState) (segmentIndex : Nat) : List Effect × Option ℚ :=
  if ¬ st.playerAttached ∨ st.segments.isEmpty then
    ([], none)
  else
    match st.segments.get? segmentIndex with
    | none => ([], none)
    | some segment =>
      let timing := segmentTimingFor st segment
      ([Effect.seek timing.startTime, Effect.play], some timing.endTime)

/-- One round of the checkEndTime poll armed by playSegment: pause and
raise onSegmentComplete once the reported player time reaches the chosen
end time; otherwise keep polling (no effect this round). -/
def checkEndTime (st : EngineState) (endTime : ℚ) (segmentIndex : Nat)
    (reportedTime : ℚ) : List Effect :=
  if ¬ st.playerAttached then
    []
  else if reportedTime ≥ endTime then
    [Effect.pause, Effect.onSegmentComplete segmentIndex (st.segments.getD segmentIndex default)]
  else
    []

/-- navigateToSegmentStart of ESLVideoPlayer: position the player at the
enhanced (buffered) start of the segment, without playing. -/
def navigateToSegmentStart (st : EngineState) (segmentIndex : Nat) : List Effect :=
  if ¬ st.playerAttached ∨ st.segments.isEmpty then
    []
  else
    match st.segments.get? segmentIndex with
    | none => []
    | some segment => [Effect.seek (calculatePreciseTiming segment).startTime]

/-- goToSegment of ESLVideoPlayer: no-op on an out-of-range index;
otherwise commit the index, reset repeatCount, notify onProgress and
onSegmentChange, and, when a player is attached, seek the enhanced start
and (in non-normal modes) start segment-bounded playback. -/
def goToSegment (st : EngineState) (segmentIndex : Int) : EngineState × List Effect :=
  if segmentIndex < 0 ∨ (st.segments.length : Int) ≤ segmentIndex then
    (st, [])
  else
    let i := segmentIndex.toNat
    let segment := st.segments.getD i default
    let st1 := { st with currentSegment := i, repeatCount := 0 }
    let notifyEffects := [Effect.onProgress i segment, Effect.onSegmentChange i segment]
    let playerEffects :=
      if st.playerAttached then
        navigateToSegmentStart st i ++
          (if st.playbackMode ≠ Mode.normal then (playSegment st i).1 else [])
      else
        []
    (st1, notifyEffects ++ playerEffects)

/-- setMode of ESLVideoPlayer: commit the new mode, reset repeatCount, and
in listen or repeat mode call playCurrentSegment. The playback call runs
inside the same render as the call to setMode, so playSegment still reads
the pre-transition playbackMode from its closure; the model therefore
passes the pre-transition state st to playSegment. -/
def setMode (st : EngineState) (mode : Mode) : EngineState × List Effect :=
  let st1 := { st with playbackMode := mode, repeatCount := 0 }
  let effects :=
    if mode = Mode.listen ∨ mode = Mode.«repeat» then
      (playSegment st st.currentSegment).1
    else
      []
  (st1, effects)

/-- The commit stage of handleTimeUpdate: a resolved index different from
the stored one is committed immediately and both host callbacks fire. -/
def commitStep (segments : List Segment) (currentSegment : Nat) (currentTime : ℚ) :
    Nat × List Effect :=
  let s := segmentToShow segments currentTime
  if s ≠ -1 ∧ s ≠ (currentSegment : Int) then
    (s.toNat,
      [Effect.onProgress s.toNat (segments.getD s.toNat default),
       Effect.onSegmentChange s.toNat (segments.getD s.toNat default)])
  else
    (currentSegment, [])

/-- handleTimeUpdate of ESLVideoPlayer: early return without player or
segments, otherwise resolve and commit. -/
def handleTimeUpdate (st : EngineState) (currentTime : ℚ) : EngineState × List Effect :=
  if ¬ st.playerAttached ∨ st.segments.isEmpty then
    (st, [])
  else
    let r := commitStep st.segments st.currentSegment currentTime
    ({ st with currentSegment := r.1 }, r.2)

/-- A run of successive time-progress events, each arriving in its own
event-loop tick so that each sees the state committed by the previous
one. -/
def processTimeEvents : EngineState → List ℚ → EngineState × List Effect
  | st, [] => (st, [])
  | st, t :: ts =>
    let r1 := handleTimeUpdate st t
    let r2 := processTimeEvents r1.1 ts
    (r2.1, r1.2 ++ r2.2)

def isSegmentChange : Effect → Bool
  | .onSegmentChange _ _ => true
  | _ => false

/-- Number of onSegmentChange notifications in an effect list. -/
def countSegmentChange (effects : List Effect) : Nat :=
  effects.countP isSegmentChange

/-- A raw segment as delivered inside the transcription prop, before the
parsing effect shapes it. -/
structure RawSegment where
  start : ℚ
  «end» : ℚ
  text : Option String
  words : Option (List Word)
deriving DecidableEq

/-- One parsed segment of the transcription parsing effect: id from the
map index, text trimmed and defaulted to the empty string, duration
recomputed, words defaulted to the empty list. -/
def parseSegment (index : Nat) (segment : RawSegment) : Segment :=
  { id := index
    start := segment.start
    «end» := segment.«end»
    text := (segment.text.map String.trim).getD ""
    duration := segment.«end» - segment.start
    words := segment.words.getD [] }

/-- The map of the transcription parsing effect, carrying the running
index. -/
def parseSegmentsFrom (index : Nat) : List RawSegment → List Segment
  | [] => []
  | r :: rest => parseSegment index r :: parseSegmentsFrom (index + 1) rest

/-- The transcription parsing effect of ESLVideoPlayer: when transcription
data with a segments field arrives, the mapped sequence replaces the
stored one unconditionally; otherwise the stored sequence is kept. -/
def loadTranscription (prev : List Segment) (transcription : Option (List RawSegment)) :
    List Segment :=
  match transcription with
  | some rawSegments => parseSegmentsFrom 0 rawSegments
  | none => prev

theorem parseSegmentsFrom_length (k : Nat) (rs : List RawSegment) :
    (parseSegmentsFrom k rs).length = rs.length := by
  induction rs generalizing k with
  | nil => simp [parseSegmentsFrom]
  | cons r rest ih => simp [parseSegmentsFrom, ih]

theorem parseSegmentsFrom_get (k : Nat) (rs : List RawSegment) (i : Nat)
    (hi : i < rs.length) (hj : i < (parseSegmentsFrom k rs).length) :
    (parseSegmentsFrom k rs).get ⟨i, hj⟩ = parseSegment (k + i) (rs.get ⟨i, hi⟩) := by
  induction rs generalizing k i with
  | nil => simp at hi
  | cons r rest ih =>
    cases i with
    | zero => simp [parseSegmentsFrom]
    | succ j =>
      have hi2 : j < rest.length := by simpa using hi
      have hj2 : j < (parseSegmentsFrom (k + 1) rest).length := by
        simpa [parseSegmentsFrom] using hj
      calc (parseSegmentsFrom k (r :: rest)).get ⟨j + 1, hj⟩
          = (parseSegmentsFrom (k + 1) rest).get ⟨j, hj2⟩ := rfl
        _ = parseSegment (k + 1 + j) (rest.get ⟨j, hi2⟩) := ih (k + 1) j hi2 hj2
        _ = parseSegment (k + (j + 1)) ((r :: rest).get ⟨j + 1, hi⟩) := by
            congr 1
            omega

/-- The per-event-type listener registrations held by the external player,
counted per event name. -/
structure Listeners where
  timeupdate : Nat
  seeked : Nat
  seeking : Nat
  loadedmetadata : Nat
  canplay : Nat
  play : Nat
  pause : Nat
  ended : Nat
deriving DecidableEq

def emptyListeners : Listeners :=
  { timeupdate := 0, seeked := 0, seeking := 0, loadedmetadata := 0,
    canplay := 0, play := 0, pause := 0, ended := 0 }

/-- handlePlayerReady of ESLVideoPlayer: stores the player handle and
registers one more handler for every tracked event. Nothing is detached
first. -/
def handlePlayerReady (l : Listeners) : Listeners :=
  { timeupdate := l.timeupdate + 1
    seeked := l.seeked + 1
    seeking := l.seeking + 1
    loadedmetadata := l.loadedmetadata + 1
    canplay := l.canplay + 1
    play := l.play + 1
    pause := l.pause + 1
    ended := l.ended + 1 }

/-- n successive calls of handlePlayerReady starting from no listeners. -/
def attachTimes : Nat → Listeners
  | 0 => emptyListeners
  | n + 1 => handlePlayerReady (attachTimes n)

/-- Dispatch of one timeupdate event of the external player: every
registered timeupdate handler runs. Within the single synchronous
dispatch, every handler invocation reads the same pre-event React state
from its closure, so each produces the same effects. -/
def dispatchTimeupdate (st : EngineState) (l : Listeners) (currentTime : ℚ) :
    List Effect :=
  (List.replicate l.timeupdate (handleTimeUpdate st currentTime).2).flatten

theorem attachTimes_timeupdate (n : Nat) : (attachTimes n).timeupdate = n := by
  induction n with
  | zero => rfl
  | succ k ih => simp [attachTimes, handlePlayerReady, ih]

theorem countP_join_replicate (p : Effect → Bool) (n : Nat) (l : List Effect) :
    ((List.replicate n l).flatten.countP p) = n * l.countP p := by
  induction n with
  | zero => simp
  | succ k ih =>
    simp [List.replicate_succ, List.countP_append, ih]
    ring

/-- Scenario A fixture: first transcript segment, no word timing. -/
def segA : Segment :=
  { id := 0, start := 0, «end» := 2, text := "Hi", duration := 2, words := [] }

/-- Scenario A fixture: second transcript segment, no word timing. -/
def segB : Segment :=
  { id := 1, start := 2, «end» := 5, text := "there", duration := 3, words := [] }

/-- P4 fixture: segment with one timed word whose end is far before the
nominal segment end. -/
def gapSeg : Segment :=
  { id := 0, start := 10, «end» := 20, text := "", duration := 10,
    words := [{ text := "w", start := some (21/2), «end» := some 15 }] }

/-- A concrete attached engine state over the Scenario A transcript. -/
def exSt : EngineState :=
  { currentSegment := 0, playbackMode := Mode.normal, repeatCount := 0,
    maxRepeats := 3, isPlaying := false, segments := [segA, segB],
    playerAttached := true }

/-- C1: for every non-empty segment sequence and every currentTime at
least 0, the ordered resolution chain of handleTimeUpdate (containment,
then window-start intervals, then the past-the-end / default-0 fallback)
selects an index in [0, segmentCount) and never commits -1. -/
theorem segment_resolution_total (segments : List Segment) (currentTime : ℚ)
    (hne : segments ≠ []) (ht : 0 ≤ currentTime) :
    0 ≤ segmentToShow segments currentTime ∧
      segmentToShow segments currentTime < (segments.length : Int) :=
  segmentToShow_bounds segments currentTime hne

/-- Witness for C1 at the Scenario A transcript and currentTime 3. -/
theorem segment_resolution_total_witness :
    0 ≤ segmentToShow [segA, segB] 3 ∧
      segmentToShow [segA, segB] 3 < (([segA, segB] : List Segment).length : Int) :=
  segment_resolution_total [segA, segB] 3 (by with_unfolding_all decide)
    (by with_unfolding_all decide)

/-- Counterexample for C2: for the segment gapSeg the effective window
start is max(0, firstWordStart - START_BUFFER) = 10.35, strictly above the
nominal segment start 10, so the claimed conjunction fails. -/
theorem window_monotonicity_cex :
    ¬ ((calculatePreciseTiming gapSeg).startTime ≤ gapSeg.start ∧
       gapSeg.«end» + MIN_END_BUFFER ≤ (calculatePreciseTiming gapSeg).endTime) := by
  with_unfolding_all decide

/-- C2 (amended): the end bound endTime at least segment.end +
MIN_END_BUFFER holds in every branch of calculatePreciseTiming; the start
bound startTime at most segment.start holds in the no-timed-words
branches (given a non-negative segment start), while the timed-word
branch anchors the start at the first timed word instead. -/
theorem window_monotonicity_amended (s : Segment) (hs : 0 ≤ s.start) :
    s.«end» + MIN_END_BUFFER ≤ (calculatePreciseTiming s).endTime ∧
    (s.words.filter hasTiming = [] →
      (calculatePreciseTiming s).startTime ≤ s.start) := by
  constructor
  · simp only [calculatePreciseTiming]
    split
    · unfold segmentFallbackTiming
      simp only [MIN_END_BUFFER, END_BUFFER]
      linarith
    · split
      · exact le_mathMax_right _ _
      · unfold segmentFallbackTiming
        simp only [MIN_END_BUFFER, END_BUFFER]
        linarith
  · intro hf
    have hstart : mathMax 0 (s.start - START_BUFFER) ≤ s.start := by
      apply mathMax_le _ _ _ hs
      simp only [START_BUFFER]
      linarith
    simp only [calculatePreciseTiming]
    split
    · exact hstart
    · split
      next firstW lastW hh hl =>
        rw [hf] at hh
        simp at hh
      next =>
        exact hstart

/-- Witness for C2 (amended) at the word-free segment segA. -/
theorem window_monotonicity_amended_witness :
    segA.«end» + MIN_END_BUFFER ≤ (calculatePreciseTiming segA).endTime ∧
    (segA.words.filter hasTiming = [] →
      (calculatePreciseTiming segA).startTime ≤ segA.start) :=
  window_monotonicity_amended segA (by with_unfolding_all decide)

/-- C9: for gapSeg the word-to-segment gap 20 - 15 = 5 exceeds LARGE_GAP,
so the window end is segment.end + MIN_END_BUFFER = 20.15, not
lastWordEnd + END_BUFFER = 15.30. -/
theorem large_gap_endTime :
    (calculatePreciseTiming gapSeg).endTime = gapSeg.«end» + MIN_END_BUFFER ∧
    (calculatePreciseTiming gapSeg).endTime = 403/20 ∧
    (calculatePreciseTiming gapSeg).endTime ≠ 153/10 := by
  with_unfolding_all decide

theorem isEmpty_false_of_lt {l : List Segment} {i : Nat} (hi : i < l.length) :
    l.isEmpty = false := by
  cases l with
  | nil => simp at hi
  | cons a rest => rfl

theorem get?_eq_getD {l : List Segment} {i : Nat} (hi : i < l.length) :
    l.get? i = some (l.getD i default) := by
  rw [List.get?_eq_get hi]
  congr 1
  rw [List.getD_eq_getElem?_getD, List.getElem?_eq_getElem hi]
  rfl

/-- playSegment evaluated on an attached player and an in-range index. -/
theorem playSegment_eq (st : EngineState) (i : Nat)
    (hp : st.playerAttached = true) (hi : i < st.segments.length) :
    playSegment st i =
      ([Effect.seek (segmentTimingFor st (st.segments.getD i default)).startTime,
        Effect.play],
       some (segmentTimingFor st (st.segments.getD i default)).endTime) := by
  unfold playSegment
  rw [if_neg (by simp [hp, isEmpty_false_of_lt hi])]
  rw [get?_eq_getD hi]

/-- C6: goToSegment with an index outside [0, segmentCount), including -1
and segmentCount, is a complete no-op: the state is unchanged and no
notification, seek or play effect is issued. -/
theorem goToSegment_out_of_range_noop (st : EngineState) (segmentIndex : Int)
    (h : segmentIndex < 0 ∨ (st.segments.length : Int) ≤ segmentIndex) :
    goToSegment st segmentIndex = (st, []) := by
  unfold goToSegment
  rw [if_pos h]

/-- Witness for C6 at the Scenario A state, at index -1 and at index
segmentCount = 2. -/
theorem goToSegment_out_of_range_noop_witness :
    goToSegment exSt (-1) = (exSt, []) ∧ goToSegment exSt 2 = (exSt, []) :=
  ⟨goToSegment_out_of_range_noop exSt (-1) (by with_unfolding_all decide),
   goToSegment_out_of_range_noop exSt 2 (by with_unfolding_all decide)⟩

/-- C7: every setMode call resets repeatCount to 0 and commits the new
mode (also on a repeat-to-repeat transition with a positive repeatCount);
listen and repeat immediately start playback of the current segment,
normal issues no playback effect. -/
theorem setMode_resets_and_plays (st : EngineState) (mode : Mode)
    (hp : st.playerAttached = true) (hv : st.currentSegment < st.segments.length) :
    (setMode st mode).1.repeatCount = 0 ∧
    (setMode st mode).1.playbackMode = mode ∧
    ((mode = Mode.listen ∨ mode = Mode.«repeat») →
      (setMode st mode).2 =
        [Effect.seek
           (segmentTimingFor st (st.segments.getD st.currentSegment default)).startTime,
         Effect.play]) ∧
    (mode = Mode.normal → (setMode st mode).2 = []) := by
  refine ⟨rfl, rfl, ?_, ?_⟩
  · intro hm
    unfold setMode
    rw [if_pos hm]
    simp only []
    rw [playSegment_eq st st.currentSegment hp hv]
  · intro hm
    unfold setMode
    rw [if_neg (by simp [hm])]

/-- Witness for C7: a repeat-to-repeat transition with repeatCount already
2 resets it to 0 and replays the current segment. -/
theorem setMode_resets_and_plays_witness :
    (setMode
        { currentSegment := 0, playbackMode := Mode.«repeat», repeatCount := 2,
          maxRepeats := 3, isPlaying := true, segments := [segA, segB],
          playerAttached := true }
        Mode.«repeat»).1.repeatCount = 0 ∧
    (setMode
        { currentSegment := 0, playbackMode := Mode.«repeat», repeatCount := 2,
          maxRepeats := 3, isPlaying := true, segments := [segA, segB],
          playerAttached := true }
        Mode.«repeat»).1.playbackMode = Mode.«repeat» ∧
    ((Mode.«repeat» = Mode.listen ∨ Mode.«repeat» = Mode.«repeat») →
      (setMode
          { currentSegment := 0, playbackMode := Mode.«repeat», repeatCount := 2,
            maxRepeats := 3, isPlaying := true, segments := [segA, segB],
            playerAttached := true }
          Mode.«repeat»).2 =
        [Effect.seek
           (segmentTimingFor
              { currentSegment := 0, playbackMode := Mode.«repeat», repeatCount := 2,
                maxRepeats := 3, isPlaying := true, segments := [segA, segB],
                playerAttached := true }
              (([segA, segB] : List Segment).getD 0 default)).startTime,
         Effect.play]) ∧
    (Mode.«repeat» = Mode.normal →
      (setMode
          { currentSegment := 0, playbackMode := Mode.«repeat», repeatCount := 2,
            maxRepeats := 3, isPlaying := true, segments := [segA, segB],
            playerAttached := true }
          Mode.«repeat»).2 = []) :=
  setMode_resets_and_plays _ Mode.«repeat» rfl (by with_unfolding_all decide)

/-- C8: playSegment chooses its boundaries by mode, the buffered effective
window in repeat mode and the raw segment boundaries otherwise, seeks the
chosen start, starts playback, arms the end watch at the chosen end, and
the end watch pauses and raises onSegmentComplete exactly once the
reported time reaches that end. -/
theorem playSegment_mode_windows (st : EngineState) (i : Nat)
    (hp : st.playerAttached = true) (hi : i < st.segments.length) :
    (playSegment st i).1 =
      [Effect.seek (segmentTimingFor st (st.segments.getD i default)).startTime,
       Effect.play] ∧
    (playSegment st i).2 =
      some (segmentTimingFor st (st.segments.getD i default)).endTime ∧
    (st.playbackMode = Mode.«repeat» →
      segmentTimingFor st (st.segments.getD i default) =
        calculatePreciseTiming (st.segments.getD i default)) ∧
    (st.playbackMode ≠ Mode.«repeat» →
      segmentTimingFor st (st.segments.getD i default) =
        { startTime := (st.segments.getD i default).start,
          endTime := (st.segments.getD i default).«end»,
          duration := (st.segments.getD i default).duration }) ∧
    (∀ t : ℚ, (segmentTimingFor st (st.segments.getD i default)).endTime ≤ t →
      checkEndTime st (segmentTimingFor st (st.segments.getD i default)).endTime i t =
        [Effect.pause, Effect.onSegmentComplete i (st.segments.getD i default)]) ∧
    (∀ t : ℚ, t < (segmentTimingFor st (st.segments.getD i default)).endTime →
      checkEndTime st (segmentTimingFor st (st.segments.getD i default)).endTime i t =
        []) := by
  refine ⟨?_, ?_, ?_, ?_, ?_, ?_⟩
  · rw [playSegment_eq st i hp hi]
  · rw [playSegment_eq st i hp hi]
  · intro hm
    unfold segmentTimingFor
    rw [if_pos hm]
  · intro hm
    unfold segmentTimingFor
    rw [if_neg hm]
  · intro t hle
    unfold checkEndTime
    rw [if_neg (by simp [hp]), if_pos hle]
  · intro t hlt
    unfold checkEndTime
    rw [if_neg (by simp [hp]), if_neg (by exact not_le.mpr hlt)]

/-- Witness for C8 at the Scenario A state in repeat mode, segment 1. -/
theorem playSegment_mode_windows_witness :
    (playSegment { exSt with playbackMode := Mode.«repeat» } 1).1 =
      [Effect.seek
         (segmentTimingFor { exSt with playbackMode := Mode.«repeat» }
            (({ exSt with playbackMode := Mode.«repeat» } : EngineState).segments.getD 1
               default)).startTime,
       Effect.play] ∧
    (playSegment { exSt with playbackMode := Mode.«repeat» } 1).2 =
      some
        (segmentTimingFor { exSt with playbackMode := Mode.«repeat» }
           (({ exSt with playbackMode := Mode.«repeat» } : EngineState).segments.getD 1
              default)).endTime ∧
    (({ exSt with playbackMode := Mode.«repeat» } : EngineState).playbackMode =
        Mode.«repeat» →
      segmentTimingFor { exSt with playbackMode := Mode.«repeat» }
          (({ exSt with playbackMode := Mode.«repeat» } : EngineState).segments.getD 1
             default) =
        calculatePreciseTiming
          (({ exSt with playbackMode := Mode.«repeat» } : EngineState).segments.getD 1
             default)) ∧
    (({ exSt with playbackMode := Mode.«repeat» } : EngineState).playbackMode ≠
        Mode.«repeat» →
      segmentTimingFor { exSt with playbackMode := Mode.«repeat» }
          (({ exSt with playbackMode := Mode.«repeat» } : EngineState).segments.getD 1
             default) =
        { startTime :=
            (({ exSt with playbackMode := Mode.«repeat» } : EngineState).segments.getD 1
               default).start,
          endTime :=
            (({ exSt with playbackMode := Mode.«repeat» } : EngineState).segments.getD 1
               default).«end»,
          duration :=
            (({ exSt with playbackMode := Mode.«repeat» } : EngineState).segments.getD 1
               default).duration }) ∧
    (∀ t : ℚ,
      (segmentTimingFor { exSt with playbackMode := Mode.«repeat» }
           (({ exSt with playbackMode := Mode.«repeat» } : EngineState).segments.getD 1
              default)).endTime ≤ t →
      checkEndTime { exSt with playbackMode := Mode.«repeat» }
          (segmentTimingFor { exSt with playbackMode := Mode.«repeat» }
             (({ exSt with playbackMode := Mode.«repeat» } : EngineState).segments.getD 1
                default)).endTime 1 t =
        [Effect.pause,
         Effect.onSegmentComplete 1
           (({ exSt with playbackMode := Mode.«repeat» } : EngineState).segments.getD 1
              default)]) ∧
    (∀ t : ℚ,
      t <
        (segmentTimingFor { exSt with playbackMode := Mode.«repeat» }
            (({ exSt with playbackMode := Mode.«repeat» } : EngineState).segments.getD 1
               default)).endTime →
      checkEndTime { exSt with playbackMode := Mode.«repeat» }
          (segmentTimingFor { exSt with playbackMode := Mode.«repeat» }
             (({ exSt with playbackMode := Mode.«repeat» } : EngineState).segments.getD 1
                default)).endTime 1 t =
        []) :=
  playSegment_mode_windows { exSt with playbackMode := Mode.«repeat» } 1 rfl
    (by with_unfolding_all decide)

/-- C10: goToSegment with a valid index while no player is attached still
commits the index, resets repeatCount, and fires onProgress and
onSegmentChange with the indexed segment; no seek or play effect is
issued and no other state field changes. -/
theorem goToSegment_detached_notifies (st : EngineState) (i : Nat)
    (hi : i < st.segments.length) (hp : st.playerAttached = false) :
    goToSegment st (i : Int) =
      ({ st with currentSegment := i, repeatCount := 0 },
       [Effect.onProgress i (st.segments.getD i default),
        Effect.onSegmentChange i (st.segments.getD i default)]) := by
  unfold goToSegment
  rw [if_neg (by push_neg; constructor <;> [positivity; exact_mod_cast hi])]
  simp [hp, Int.toNat_natCast]

/-- Witness for C10 at the detached Scenario A state, index 1. -/
theorem goToSegment_detached_notifies_witness :
    goToSegment { exSt with playerAttached := false } ((1 : Nat) : Int) =
      ({ { exSt with playerAttached := false } with currentSegment := 1, repeatCount := 0 },
       [Effect.onProgress 1
          (({ exSt with playerAttached := false } : EngineState).segments.getD 1 default),
        Effect.onSegmentChange 1
          (({ exSt with playerAttached := false } : EngineState).segments.getD 1
             default)]) :=
  goToSegment_detached_notifies { exSt with playerAttached := false } 1
    (by with_unfolding_all decide) rfl

/-- handleTimeUpdate evaluated on an attached player when the resolved
index differs from the stored one: the commit and both notifications
happen within the same event, with no intervening delay. -/
theorem handleTimeUpdate_commits (st : EngineState) (t : ℚ)
    (hp : st.playerAttached = true) (hne : st.segments ≠ [])
    (hchange : segmentToShow st.segments t ≠ (st.currentSegment : Int)) :
    handleTimeUpdate st t =
      ({ st with currentSegment := (segmentToShow st.segments t).toNat },
       [Effect.onProgress (segmentToShow st.segments t).toNat
          (st.segments.getD (segmentToShow st.segments t).toNat default),
        Effect.onSegmentChange (segmentToShow st.segments t).toNat
          (st.segments.getD (segmentToShow st.segments t).toNat default)]) := by
  have hnn := (segmentToShow_bounds st.segments t hne).1
  have hie : st.segments.isEmpty = false := by
    cases hs : st.segments with
    | nil => exact absurd hs hne
    | cons a rest => rfl
  unfold handleTimeUpdate
  rw [if_neg (by simp [hp, hie])]
  unfold commitStep
  rw [if_pos ⟨by omega, hchange⟩]

/-- Counterexample for C3: over the Scenario A transcript, the
time-progress events 2.5 then 1.0 each cross a segment boundary, and the
code commits and notifies on each one immediately; onSegmentChange fires
twice, not once. -/
theorem debounce_cex :
    segmentToShow exSt.segments (5/2) = 1 ∧
    segmentToShow exSt.segments 1 = 0 ∧
    countSegmentChange (processTimeEvents exSt [5/2, 1]).2 = 2 ∧
    ¬ countSegmentChange (processTimeEvents exSt [5/2, 1]).2 = 1 := by
  with_unfolding_all decide

/-- C3 (amended): there is no debounce; a resolved index different from
the stored one is committed and notified within the same time-progress
event, so two boundary crossings notify twice (once per crossing)
regardless of how little time separates the events. -/
theorem immediate_commit_two_crossings (st : EngineState) (t1 t2 : ℚ)
    (hp : st.playerAttached = true) (hne : st.segments ≠ [])
    (h1 : segmentToShow st.segments t1 ≠ (st.currentSegment : Int))
    (h2 : segmentToShow st.segments t2 ≠ segmentToShow st.segments t1) :
    countSegmentChange (processTimeEvents st [t1, t2]).2 = 2 := by
  have hb1 := segmentToShow_bounds st.segments t1 hne
  have e1 := handleTimeUpdate_commits st t1 hp hne h1
  have hcast : ((segmentToShow st.segments t1).toNat : Int) =
      segmentToShow st.segments t1 := Int.toNat_of_nonneg hb1.1
  have h2' :
      segmentToShow
          ({ st with
              currentSegment := (segmentToShow st.segments t1).toNat } :
            EngineState).segments t2 ≠
        (({ st with
              currentSegment := (segmentToShow st.segments t1).toNat } :
            EngineState).currentSegment : Int) := by
    simpa [hcast] using h2
  have e2 := handleTimeUpdate_commits
    ({ st with currentSegment := (segmentToShow st.segments t1).toNat })
    t2 hp hne h2'
  simp only [processTimeEvents]
  rw [e1]
  simp only []
  rw [e2]
  simp [countSegmentChange, isSegmentChange, List.countP_append, List.countP_cons]

/-- Witness for C3 (amended) at the Scenario A state with the crossing
events 2.5 then 1.0. -/
theorem immediate_commit_two_crossings_witness :
    countSegmentChange (processTimeEvents exSt [5/2, 1]).2 = 2 :=
  immediate_commit_two_crossings exSt (5/2) 1 rfl
    (by with_unfolding_all decide)
    (by with_unfolding_all decide)
    (by with_unfolding_all decide)

/-- Counterexample for C4: after calling handlePlayerReady twice there are
two registered timeupdate handlers, not one, and a single boundary
crossing time-progress event produces two segment-change notifications,
not one. -/
theorem attach_twice_cex :
    (attachTimes 2).timeupdate = 2 ∧
    countSegmentChange (dispatchTimeupdate exSt (attachTimes 2) (5/2)) = 2 ∧
    ¬ countSegmentChange (dispatchTimeupdate exSt (attachTimes 2) (5/2)) = 1 := by
  with_unfolding_all decide

/-- C4 (amended): handlePlayerReady is not idempotent; every call
registers a fresh set of listeners without detaching the previous ones,
so after n attachments a single time-progress event that crosses a
boundary is handled n times and produces n segment-change notifications. -/
theorem attach_listener_accumulation (n : Nat) (st : EngineState) (t : ℚ)
    (h : countSegmentChange (handleTimeUpdate st t).2 = 1) :
    (attachTimes n).timeupdate = n ∧
    countSegmentChange (dispatchTimeupdate st (attachTimes n) t) = n := by
  refine ⟨attachTimes_timeupdate n, ?_⟩
  unfold countSegmentChange at h ⊢
  unfold dispatchTimeupdate
  rw [attachTimes_timeupdate, countP_join_replicate, h, mul_one]

/-- Witness for C4 (amended) at the Scenario A state, two attachments and
the boundary-crossing event 2.5. -/
theorem attach_listener_accumulation_witness :
    (attachTimes 2).timeupdate = 2 ∧
    countSegmentChange (dispatchTimeupdate exSt (attachTimes 2) (5/2)) = 2 :=
  attach_listener_accumulation 2 exSt (5/2) (by with_unfolding_all decide)

/-- A malformed raw segment: end 3 before start 5. -/
def malRaw : RawSegment :=
  { start := 5, «end» := 3, text := none, words := none }

/-- Counterexample for C5: loading transcription data whose only segment
is malformed (end 3 <= start 5) does not keep the previous (empty)
sequence; the parsing effect adopts the malformed segment verbatim and no
rejection signal exists. -/
theorem load_malformed_cex :
    loadTranscription [] (some [malRaw]) ≠ [] ∧
    ((loadTranscription [] (some [malRaw])).getD 0 default).«end» ≤
      ((loadTranscription [] (some [malRaw])).getD 0 default).start := by
  with_unfolding_all decide

/-- C5 (amended): the transcription parsing effect performs no
validation; the mapped sequence is adopted unconditionally, so a raw
segment with end at most start is carried into the stored sequence with
its times unchanged rather than rejected. -/
theorem load_adopts_malformed (prev : List Segment) (rs : List RawSegment)
    (i : Nat) (hi : i < rs.length)
    (hmal : (rs.get ⟨i, hi⟩).«end» ≤ (rs.get ⟨i, hi⟩).start) :
    (loadTranscription prev (some rs)).length = rs.length ∧
    ∃ hj : i < (loadTranscription prev (some rs)).length,
      ((loadTranscription prev (some rs)).get ⟨i, hj⟩).start = (rs.get ⟨i, hi⟩).start ∧
      ((loadTranscription prev (some rs)).get ⟨i, hj⟩).«end» = (rs.get ⟨i, hi⟩).«end» := by
  have hlen : (loadTranscription prev (some rs)).length = rs.length :=
    parseSegmentsFrom_length 0 rs
  have hj : i < (loadTranscription prev (some rs)).length := by
    rw [hlen]; exact hi
  refine ⟨hlen, hj, ?_, ?_⟩
  · have hg := parseSegmentsFrom_get 0 rs i hi hj
    calc ((loadTranscription prev (some rs)).get ⟨i, hj⟩).start
        = (parseSegment (0 + i) (rs.get ⟨i, hi⟩)).start := congrArg Segment.start hg
      _ = (rs.get ⟨i, hi⟩).start := rfl
  · have hg := parseSegmentsFrom_get 0 rs i hi hj
    calc ((loadTranscription prev (some rs)).get ⟨i, hj⟩).«end»
        = (parseSegment (0 + i) (rs.get ⟨i, hi⟩)).«end» := congrArg Segment.«end» hg
      _ = (rs.get ⟨i, hi⟩).«end» := rfl

/-- Witness for C5 (amended) at the one-element malformed raw list. -/
theorem load_adopts_malformed_witness :
    (loadTranscription [] (some [malRaw])).length = ([malRaw] : List RawSegment).length ∧
    ∃ hj : 0 < (loadTranscription [] (some [malRaw])).length,
      ((loadTranscription [] (some [malRaw])).get ⟨0, hj⟩).start =
        (([malRaw] : List RawSegment).get ⟨0, by with_unfolding_all decide⟩).start ∧
      ((loadTranscription [] (some [malRaw])).get ⟨0, hj⟩).«end» =
        (([malRaw] : List RawSegment).get ⟨0, by with_unfolding_all decide⟩).«end» :=
  load_adopts_malformed [] [malRaw] 0 (by with_unfolding_all decide)
    (by with_unfolding_all decide)
